import Mathlib

/-!
# RandomFeature (iCub learningMachine): shallow embedding and verified properties

The C++ class `iCub::learningmachine::RandomFeature` (file
`src/libraries/learningMachine/src/RandomFeature.cpp`) is embedded as pure
functions over an explicit instance record.

* `double` is an arbitrary linearly ordered field `R` (exact arithmetic); `cos`,
  `sqrt` and the `double`-to-`int` truncation are supplied by an `Arith R` record.
* `yarp::os::Bottle` is a list of values, `addInt`/`addDouble` append at the end
  and `pop` removes the last value (a null value when the bottle is empty).
* `yarp::sig::Matrix` is a row-major list with explicit row and column counts,
  `yarp::sig::Vector` is a list.
* The two pseudo random generators that `reset` creates are sequences of draws
  with a cursor.
* `unsigned int` sizes are natural numbers (taken inside the range where the
  conversions between `unsigned int` and `int` keep the value).
* C++ `for` loops are the combinators `forUp` and `forDown`.
-/

set_option linter.dupNamespace false
set_option linter.unusedSectionVars false

namespace iCub.learningmachine

/-- Failure conditions named by the specification. -/
inductive Error
  | DimensionMismatch
  | InvalidParameter
  | MalformedStream
  deriving DecidableEq, Repr

/-- Operations on `double` that are not field operations. -/
structure Arith (R : Type) where
  cos : R → R
  sqrt : R → R
  trunc : R → Int

/-- Order in which a compiler evaluates the arguments of one call; C++ leaves it
unspecified. -/
inductive ArgOrder
  | leftToRight
  | rightToLeft
  deriving DecidableEq, Repr

/-- Loop `for (i = 0; i < n; i++) body(i)` as a state transformer. -/
def forUp {σ : Type} : Nat → (Nat → σ → σ) → σ → σ
  | 0, _, s => s
  | n + 1, body, s => body n (forUp n body s)

/-- Loop `for (i = n - 1; i >= 0; i--) body(i)` as a state transformer. -/
def forDown {σ : Type} : Nat → (Nat → σ → σ) → σ → σ
  | 0, _, s => s
  | n + 1, body, s => forDown n body (body n s)

/-- Values stored in a bottle (`yarp::os::Value`). -/
inductive Value (R : Type)
  | int (i : Int)
  | double (d : R)
  | null
  deriving DecidableEq, Repr

namespace Value

variable {R : Type} [LinearOrderedField R]

/-- Method `Value::isInt`. -/
def isInt : Value R → Bool
  | int _ => true
  | _ => false

/-- Method `Value::isDouble`. -/
def isDouble : Value R → Bool
  | double _ => true
  | _ => false

/-- Method `Value::asInt`: an integer is returned as is, a double is truncated, any other
value gives 0. -/
def asInt (A : Arith R) : Value R → Int
  | int i => i
  | double d => A.trunc d
  | null => 0

/-- Method `Value::asDouble`: a double is returned as is, an integer is converted, any
other value gives 0. -/
def asDouble : Value R → R
  | int i => (i : R)
  | double d => d
  | null => 0

end Value

/-- Token stream `yarp::os::Bottle`: the last element of the list is the top. -/
abbrev Bottle (R : Type) := List (Value R)

namespace Bottle

variable {R : Type}

/-- Method `Bottle::addDouble`. -/
def addDouble (bot : Bottle R) (d : R) : Bottle R := bot ++ [Value.double d]

/-- Method `Bottle::addInt`. -/
def addInt (bot : Bottle R) (i : Int) : Bottle R := bot ++ [Value.int i]

/-- Method `Bottle::pop`: removes and returns the last value; a null value on an empty
bottle. -/
def pop (bot : Bottle R) : Value R × Bottle R :=
  (bot.getLast?.getD Value.null, bot.dropLast)

end Bottle

/-- Configuration object `yarp::os::Searchable`, seen through `find`. -/
abbrev Searchable (R : Type) := String → Value R

/-- Vectors `yarp::sig::Vector`. -/
abbrev Vec (R : Type) := List R

namespace Vec

variable {R : Type} [LinearOrderedField R]

/-- Method `Vector::resize`: the leading entries are kept, new entries are zero. -/
def resize (n : Nat) (v : Vec R) : Vec R := v.take n ++ List.replicate (n - v.length) 0

/-- Operator `operator+` on vectors (both operands are required to have the same size). -/
def add (a b : Vec R) : Vec R := (List.range a.length).map (fun k => a.getD k 0 + b.getD k 0)

end Vec

/-- Matrices `yarp::sig::Matrix`, stored row-major. -/
structure Matrix (R : Type) where
  rows : Nat
  cols : Nat
  data : List R
  deriving DecidableEq, Repr

namespace Matrix

variable {R : Type} [LinearOrderedField R]

/-- Read access `M(r, c)`. -/
def get (M : Matrix R) (r c : Nat) : R := M.data.getD (r * M.cols + c) 0

/-- Write access `M(r, c) = v`. -/
def set (M : Matrix R) (r c : Nat) (v : R) : Matrix R :=
  { M with data := M.data.set (r * M.cols + c) v }

/-- Method `Matrix::resize`: the new shape, entries inside both shapes kept, others zero. -/
def resize (r c : Nat) (M : Matrix R) : Matrix R :=
  { rows := r
    cols := c
    data := (List.range (r * c)).map (fun k =>
      if k / c < M.rows ∧ k % c < M.cols then M.get (k / c) (k % c) else 0) }

/-- Operator `operator*` of a matrix and a vector (the vector is required to have as many
entries as the matrix has columns). -/
def mulVec (M : Matrix R) (a : Vec R) : Vec R :=
  (List.range M.rows).map (fun r =>
    ((List.range M.cols).map (fun c => M.get r c * a.getD c 0)).sum)

/-- Entries `M(0,0), M(0,1), ..., M(rows-1, cols-1)` listed row by row. -/
def rowMajor (M : Matrix R) : List R :=
  ((List.range M.rows).map (fun r => (List.range M.cols).map (fun c => M.get r c))).flatten

/-- Storage is consistent with the shape. -/
def WellFormed (M : Matrix R) : Prop := M.data.length = M.rows * M.cols

end Matrix

/-- Pseudo random generator: the sequence of its draws and a cursor. -/
structure Sampler (R : Type) where
  seq : Nat → R
  pos : Nat

/-- Sampler method `get()`: the next draw. -/
def Sampler.get {R : Type} (g : Sampler R) : R × Sampler R :=
  (g.seq g.pos, { g with pos := g.pos + 1 })

/-- Draws of the two generators created by one call of `reset`. -/
structure Draws (R : Type) where
  normal : Nat → R
  uniform : Nat → R

/-- Fields of a `RandomFeature` object: those of the base class
(`name`, `domainSize`, `coDomainSize`) and its own (`gamma`, `W`, `b`). -/
structure Instance (R : Type) where
  name : String
  domainSize : Nat
  coDomainSize : Nat
  gamma : R
  W : Matrix R
  b : Vec R

/-- Hooks of the base class whose bodies the specification leaves open. -/
structure Base (R : Type) where
  writeBottle : Instance R → Bottle R → Bottle R
  readBottle : Bottle R → Instance R → Bottle R × Instance R
  configure : Searchable R → Instance R → Bool × Instance R

/-- The constant `TWOPI` of the source. -/
def TWOPI {R : Type} [LinearOrderedField R] : R := 62831853071795862 / 10000000000000000

namespace IFixedSizeTransformer

variable {R : Type} [LinearOrderedField R]

/-- Modelled from the spec: `IFixedSizeTransformer::setDomainSize` is not in the
sources; it is the base-level bookkeeping that stores the domain size. -/
def setDomainSize (size : Nat) (T : Instance R) : Instance R := { T with domainSize := size }

/-- Modelled from the spec: `IFixedSizeTransformer::setCoDomainSize` is not in the
sources; it is the base-level bookkeeping that stores the co-domain size. -/
def setCoDomainSize (size : Nat) (T : Instance R) : Instance R := { T with coDomainSize := size }

/-- Modelled from the spec: `IFixedSizeTransformer::reset` is not in the sources;
the base reset touches none of the fields of the record. -/
def reset (T : Instance R) : Instance R := T

/-- Modelled from the spec: `IFixedSizeTransformer::transform` is not in the
sources; it fails with a dimension mismatch when the input length differs from
the domain size and otherwise passes the input through. -/
def transform (T : Instance R) (input : Vec R) : Except Error (Vec R) :=
  if input.length = T.domainSize then .ok input else .error Error.DimensionMismatch

end IFixedSizeTransformer

namespace RandomFeature

variable {R : Type} [LinearOrderedField R]

/-- Modelled from the spec: `getGamma` is declared in a header that is not in
the sources; getters are pure reads. -/
def getGamma (T : Instance R) : R := T.gamma

/-- Body of the inner loop of `reset`: `W(r, c) = gammasq * prng_normal.get()`. -/
def resetCell (gammasq : R) (r c : Nat) (st : Matrix R × Sampler R) : Matrix R × Sampler R :=
  let (z, g) := st.2.get
  (st.1.set r c (gammasq * z), g)

/-- Body of the last loop of `reset`: `b(i) = TWOPI * prng_uniform.get()`. -/
def resetPhase (i : Nat) (st : Vec R × Sampler R) : Vec R × Sampler R :=
  let (u, g) := st.2.get
  (st.1.set i (TWOPI * u), g)

/-- The loop bodies of `reset` on plain storage: cell `k` gets `a` times the next draw. -/
def fill (a : R) (k : Nat) (st : Vec R × Sampler R) : Vec R × Sampler R :=
  (st.1.set k (a * st.2.get.1), st.2.get.2)

/-- The inner loop body of `reset` addressed by the storage index. -/
def fillFlat (a : R) (k : Nat) (st : Matrix R × Sampler R) : Matrix R × Sampler R :=
  ({ st.1 with data := (fill a k (st.1.data, st.2)).1 }, (fill a k (st.1.data, st.2)).2)

/-- Method `RandomFeature::reset`, returning also the final states of the two generators. -/
def resetRun (A : Arith R) (d : Draws R) (T : Instance R) :
    Instance R × Sampler R × Sampler R :=
  let T := IFixedSizeTransformer.reset T
  let prng_normal : Sampler R := ⟨d.normal, 0⟩
  let prng_uniform : Sampler R := ⟨d.uniform, 0⟩
  let W := T.W.resize T.coDomainSize T.domainSize
  let gammasq := A.sqrt (2 * T.gamma)
  let wn := forUp W.rows (fun r st => forUp st.1.cols (resetCell gammasq r) st) (W, prng_normal)
  let b := Vec.resize T.coDomainSize T.b
  let bu := forUp b.length resetPhase (b, prng_uniform)
  ({ T with W := wn.1, b := bu.1 }, wn.2, bu.2)

/-- Method `RandomFeature::reset`. -/
def reset (A : Arith R) (d : Draws R) (T : Instance R) : Instance R :=
  (resetRun A d T).1

/-- Method `RandomFeature::setDomainSize`. -/
def setDomainSize (A : Arith R) (d : Draws R) (size : Nat) (T : Instance R) : Instance R :=
  reset A d (IFixedSizeTransformer.setDomainSize size T)

/-- Method `RandomFeature::setCoDomainSize`. -/
def setCoDomainSize (A : Arith R) (d : Draws R) (size : Nat) (T : Instance R) : Instance R :=
  reset A d (IFixedSizeTransformer.setCoDomainSize size T)

/-- Modelled from the spec: `setGamma` is declared in a header that is not in the
sources. A negative argument is rejected at the setter boundary and the
configuration is left unchanged; otherwise the attribute is updated and the
reset operation is invoked. -/
def setGamma (A : Arith R) (d : Draws R) (g : R) (T : Instance R) :
    Except Error Unit × Instance R :=
  if g < 0 then (.error Error.InvalidParameter, T)
  else (.ok (), reset A d { T with gamma := g })

/-- Constructor `RandomFeature::RandomFeature(dom, cod, gamma)`, run on the raw object `T0`;
each of the three setters has its own pair of generators. -/
def RandomFeature (A : Arith R) (d1 d2 d3 : Draws R) (dom cod : Nat) (gamma : R)
    (T0 : Instance R) : Except Error Unit × Instance R :=
  let T := { T0 with name := "RandomFeature" }
  let T := setDomainSize A d1 dom T
  let T := setCoDomainSize A d2 cod T
  setGamma A d3 gamma T

/-- Method `RandomFeature::transform`. -/
def transform (A : Arith R) (T : Instance R) (input : Vec R) : Except Error (Vec R) :=
  match IFixedSizeTransformer.transform T input with
  | .error e => .error e
  | .ok _ =>
    let output := Vec.add (T.W.mulVec input) T.b
    let nprojsq := A.sqrt (T.coDomainSize : R)
    .ok (forUp output.length (fun i out => out.set i (A.cos (out.getD i 0) / nprojsq)) output)

/-- Method `RandomFeature::writeBottle`. -/
def writeBottle (B : Base R) (T : Instance R) (bot : Bottle R) : Bottle R :=
  let bot := bot.addDouble (getGamma T)
  let bot := forUp T.b.length (fun i bot => Bottle.addDouble bot (T.b.getD i 0)) bot
  let bot := bot.addInt T.b.length
  let bot := forUp T.W.rows (fun r bot =>
    forUp T.W.cols (fun c bot => Bottle.addDouble bot (T.W.get r c)) bot) bot
  let bot := bot.addInt T.W.rows
  let bot := bot.addInt T.W.cols
  B.writeBottle T bot

/-- The two pops inside `W.resize(bot.pop().asInt(), bot.pop().asInt())`: the
row argument, the column argument and the remaining bottle. -/
def popDims (A : Arith R) (ord : ArgOrder) (bot : Bottle R) : Int × Int × Bottle R :=
  match ord with
  | .leftToRight =>
    let (v1, bot) := bot.pop
    let (v2, bot) := bot.pop
    (v1.asInt A, v2.asInt A, bot)
  | .rightToLeft =>
    let (v2, bot) := bot.pop
    let (v1, bot) := bot.pop
    (v1.asInt A, v2.asInt A, bot)

/-- Body of the inner loop of `readBottle`: `W(r, c) = bot.pop().asDouble()`. -/
def readCell (r c : Nat) (st : Bottle R × Matrix R) : Bottle R × Matrix R :=
  let (v, bot) := st.1.pop
  (bot, st.2.set r c v.asDouble)

/-- Body of the last loop of `readBottle`: `b(i) = bot.pop().asDouble()`. -/
def readPhase (i : Nat) (st : Bottle R × Vec R) : Bottle R × Vec R :=
  let (v, bot) := st.1.pop
  (bot, st.2.set i v.asDouble)

/-- The inner loop body of `readBottle` addressed by the storage index. -/
def readFlat (k : Nat) (st : Bottle R × Matrix R) : Bottle R × Matrix R :=
  ((readPhase k (st.1, st.2.data)).1, { st.2 with data := (readPhase k (st.1, st.2.data)).2 })

/-- Method `RandomFeature::readBottle`. -/
def readBottle (A : Arith R) (ord : ArgOrder) (B : Base R) (bot : Bottle R) (T : Instance R) :
    Bottle R × Instance R :=
  let (bot, T) := B.readBottle bot T
  let (rows, cols, bot) := popDims A ord bot
  let W := T.W.resize rows.toNat cols.toNat
  let bw := forDown W.rows (fun r st => forDown st.2.cols (readCell r) st) (bot, W)
  let (n, bot) := bw.1.pop
  let b := Vec.resize (n.asInt A).toNat T.b
  let bb := forDown b.length readPhase (bot, b)
  let (g, bot) := bb.1.pop
  (bot, { T with W := bw.2, b := bb.2, gamma := g.asDouble })

/-- Method `RandomFeature::configure`. -/
def configure (A : Arith R) (B : Base R) (d : Draws R) (config : Searchable R)
    (T : Instance R) : Except Error Bool × Instance R :=
  let (success, T) := B.configure config T
  if (config "gamma").isDouble || (config "gamma").isInt then
    match setGamma A d (config "gamma").asDouble T with
    | (.error e, T) => (.error e, T)
    | (.ok _, T) => (.ok true, T)
  else (.ok success, T)

/-- Shape invariant: `W` is `coDomainSize × domainSize` and `b` has `coDomainSize`
entries. -/
def ShapeOK (T : Instance R) : Prop :=
  T.W.rows = T.coDomainSize ∧ T.W.cols = T.domainSize ∧ T.W.data.length = T.coDomainSize * T.domainSize ∧
    T.b.length = T.coDomainSize

/-- One mutating call on an instance, with the draws of the generators it creates. -/
inductive Call (R : Type)
  | setDomainSize (d : Draws R) (size : Nat)
  | setCoDomainSize (d : Draws R) (size : Nat)
  | setGamma (d : Draws R) (g : R)
  | reset (d : Draws R)

/-- Effect of one call on the instance. -/
def Call.run (A : Arith R) : Call R → Instance R → Instance R
  | .setDomainSize d size, T => RandomFeature.setDomainSize A d size T
  | .setCoDomainSize d size, T => RandomFeature.setCoDomainSize A d size T
  | .setGamma d g, T => (RandomFeature.setGamma A d g T).2
  | .reset d, T => RandomFeature.reset A d T

/-- Effect of a sequence of calls, first call first. -/
def runCalls (A : Arith R) (calls : List (Call R)) (T : Instance R) : Instance R :=
  calls.foldl (fun T c => c.run A T) T

/-- Method `RandomFeature::transform` together with the object as it is after the
call. -/
def transformRun (A : Arith R) (T : Instance R) (input : Vec R) :
    Except Error (Vec R) × Instance R :=
  match IFixedSizeTransformer.transform T input with
  | .error e => (.error e, T)
  | .ok _ =>
    let output := Vec.add (T.W.mulVec input) T.b
    let nprojsq := A.sqrt (T.coDomainSize : R)
    (.ok (forUp output.length (fun i out => out.set i (A.cos (out.getD i 0) / nprojsq)) output), T)

/-- A bottle together with the record of the values removed from it, oldest first. -/
abbrev Logged (R : Type) := Bottle R × List (Value R)

/-- Method `Bottle::pop` on a logged bottle: the removed value, if any, is recorded. -/
def popLog (st : Logged R) : Value R × Logged R :=
  ((Bottle.pop st.1).1, ((Bottle.pop st.1).2, st.2 ++ st.1.getLast?.toList))

/-- The two pops of `popDims` on a logged bottle. -/
def popDimsLog (A : Arith R) (ord : ArgOrder) (bot : Logged R) : Int × Int × Logged R :=
  match ord with
  | .leftToRight =>
    let (v1, bot) := popLog bot
    let (v2, bot) := popLog bot
    (v1.asInt A, v2.asInt A, bot)
  | .rightToLeft =>
    let (v2, bot) := popLog bot
    let (v1, bot) := popLog bot
    (v1.asInt A, v2.asInt A, bot)

/-- Loop body `readCell` on a logged bottle. -/
def readCellLog (r c : Nat) (st : Logged R × Matrix R) : Logged R × Matrix R :=
  let (v, bot) := popLog st.1
  (bot, st.2.set r c v.asDouble)

/-- Loop body `readPhase` on a logged bottle. -/
def readPhaseLog (i : Nat) (st : Logged R × Vec R) : Logged R × Vec R :=
  let (v, bot) := popLog st.1
  (bot, st.2.set i v.asDouble)

/-- Method `RandomFeature::readBottle` recording, after the base class has read, every
value it removes from the bottle. -/
def readBottleLog (A : Arith R) (ord : ArgOrder) (B : Base R) (bot : Bottle R) (T : Instance R) :
    Logged R × Instance R :=
  let (bot, T) := B.readBottle bot T
  let (rows, cols, bot) := popDimsLog A ord (bot, [])
  let W := T.W.resize rows.toNat cols.toNat
  let bw := forDown W.rows (fun r st => forDown st.2.cols (readCellLog r) st) (bot, W)
  let (n, bot) := popLog bw.1
  let b := Vec.resize (n.asInt A).toNat T.b
  let bb := forDown b.length readPhaseLog (bot, b)
  let (g, bot) := popLog bb.1
  (bot, { T with W := bw.2, b := bb.2, gamma := g.asDouble })

/-! ## Loops -/

theorem forUp_add {σ : Type} (a b : Nat) (f : Nat → σ → σ) (s : σ) :
    forUp (a + b) f s = forUp b (fun c => f (a + c)) (forUp a f s) := by
  induction b with
  | zero => rfl
  | succ b ih =>
    show f (a + b) (forUp (a + b) f s) = f (a + b) (forUp b (fun c => f (a + c)) (forUp a f s))
    rw [ih]

theorem forDown_add {σ : Type} (a b : Nat) (f : Nat → σ → σ) (s : σ) :
    forDown (a + b) f s = forDown a f (forDown b (fun c => f (a + c)) s) := by
  induction b generalizing s with
  | zero => rfl
  | succ b ih =>
    show forDown (a + b) f (f (a + b) s) = forDown a f (forDown b (fun c => f (a + c)) (f (a + b) s))
    rw [ih]

theorem forUp_inv {σ : Type} (P : σ → Prop) (f : Nat → σ → σ)
    (hP : ∀ k s, P s → P (f k s)) (n : Nat) (s : σ) (hs : P s) : P (forUp n f s) := by
  induction n with
  | zero => exact hs
  | succ n ih => exact hP n _ ih

theorem forDown_inv {σ : Type} (P : σ → Prop) (f : Nat → σ → σ)
    (hP : ∀ k s, P s → P (f k s)) (n : Nat) (s : σ) (hs : P s) : P (forDown n f s) := by
  induction n generalizing s with
  | zero => exact hs
  | succ n ih => exact ih _ (hP n s hs)

theorem forUp_congr_inv {σ : Type} (P : σ → Prop) (f g : Nat → σ → σ)
    (hP : ∀ k s, P s → P (g k s)) (h : ∀ k s, P s → f k s = g k s) (n : Nat) (s : σ)
    (hs : P s) : forUp n f s = forUp n g s := by
  induction n with
  | zero => rfl
  | succ n ih =>
    show f n (forUp n f s) = g n (forUp n g s)
    rw [ih]
    exact h n _ (forUp_inv P g hP n s hs)

theorem forDown_congr_inv {σ : Type} (P : σ → Prop) (f g : Nat → σ → σ)
    (hP : ∀ k s, P s → P (g k s)) (h : ∀ k s, P s → f k s = g k s) (n : Nat) (s : σ)
    (hs : P s) : forDown n f s = forDown n g s := by
  induction n generalizing s with
  | zero => rfl
  | succ n ih =>
    show forDown n f (f n s) = forDown n g (g n s)
    rw [h n s hs]
    exact ih _ (hP n s hs)

/-- A nested counting-up loop whose body addresses cell `r * n + c` is the flat
loop over `m * n` cells, as long as an invariant fixes the inner bound. -/
theorem forUp_nest {σ : Type} (P : σ → Prop) (n : Nat) (bound : σ → Nat)
    (body : Nat → Nat → σ → σ) (f : Nat → σ → σ)
    (hb : ∀ s, P s → bound s = n) (hf : ∀ r c s, P s → body r c s = f (r * n + c) s)
    (hP : ∀ k s, P s → P (f k s)) (m : Nat) (s : σ) (hs : P s) :
    forUp m (fun r st => forUp (bound st) (body r) st) s = forUp (m * n) f s := by
  induction m with
  | zero => simp [forUp]
  | succ m ih =>
    show forUp (bound (forUp m _ s)) (body m) (forUp m _ s) = _
    rw [ih, Nat.succ_mul, forUp_add]
    have hmid : P (forUp (m * n) f s) := forUp_inv P f hP _ s hs
    rw [hb _ hmid]
    exact forUp_congr_inv P (body m) (fun c => f (m * n + c)) (fun k s h => hP _ s h)
      (fun k s h => hf m k s h) n _ hmid

/-- A nested counting-down loop whose body addresses cell `r * n + c` is the flat
loop over `m * n` cells, as long as an invariant fixes the inner bound. -/
theorem forDown_nest {σ : Type} (P : σ → Prop) (n : Nat) (bound : σ → Nat)
    (body : Nat → Nat → σ → σ) (f : Nat → σ → σ)
    (hb : ∀ s, P s → bound s = n) (hf : ∀ r c s, P s → body r c s = f (r * n + c) s)
    (hP : ∀ k s, P s → P (f k s)) (m : Nat) (s : σ) (hs : P s) :
    forDown m (fun r st => forDown (bound st) (body r) st) s = forDown (m * n) f s := by
  induction m generalizing s with
  | zero => simp [forDown]
  | succ m ih =>
    show forDown m _ (forDown (bound s) (body m) s) = _
    rw [Nat.succ_mul, forDown_add, hb s hs]
    have hin : forDown n (body m) s = forDown n (fun c => f (m * n + c)) s :=
      forDown_congr_inv P (body m) (fun c => f (m * n + c)) (fun k s h => hP _ s h)
        (fun k s h => hf m k s h) n s hs
    rw [hin]
    exact ih _ (forDown_inv P _ (fun k s h => hP _ s h) n s hs)

/-! ## Lists -/

theorem range_map_getD {α : Type} (l : List α) (d : α) :
    (List.range l.length).map (fun i => l.getD i d) = l := by
  apply List.ext_getElem
  · simp
  · intro i h1 h2
    simp [List.getD_eq_getElem?_getD, List.getElem?_eq_getElem h2]

theorem range_map_getD_take {α : Type} (l : List α) (d : α) (k : Nat) (hk : k ≤ l.length) :
    (List.range k).map (fun i => l.getD i d) = l.take k := by
  apply List.ext_getElem
  · simp [hk]
  · intro i h1 h2
    simp at h1
    have h3 : i < l.length := by omega
    simp [List.getD_eq_getElem?_getD, List.getElem?_eq_getElem h3]

/-- The row-by-row listing reads the storage in order. -/
theorem Matrix.rowMajor_eq_range (M : Matrix R) :
    M.rowMajor = (List.range (M.rows * M.cols)).map (fun k => M.data.getD k 0) := by
  unfold Matrix.rowMajor Matrix.get
  generalize M.rows = m
  induction m with
  | zero => simp
  | succ m ih =>
    rw [List.range_succ, List.map_append, List.flatten_append, ih, Nat.succ_mul,
      List.range_add, List.map_append]
    simp [List.map_map, Function.comp_def]

/-- On a well-formed matrix the row-by-row listing is the storage. -/
theorem Matrix.rowMajor_eq_data (M : Matrix R) (h : M.WellFormed) : M.rowMajor = M.data := by
  rw [Matrix.rowMajor_eq_range, ← h]
  exact range_map_getD _ _

/-! ## Writing -/

theorem forUp_addDouble (g : Nat → R) (n : Nat) (bot : Bottle R) :
    forUp n (fun i bot => Bottle.addDouble bot (g i)) bot
      = bot ++ (List.range n).map (fun i => Value.double (g i)) := by
  induction n with
  | zero => simp [forUp]
  | succ n ih =>
    show Bottle.addDouble (forUp n _ bot) (g n) = _
    rw [ih, List.range_succ]
    simp [Bottle.addDouble]

theorem write_b_loop (b : Vec R) (bot : Bottle R) :
    forUp b.length (fun i bot => Bottle.addDouble bot (b.getD i 0)) bot
      = bot ++ b.map Value.double := by
  rw [forUp_addDouble]
  congr 1
  have h := congrArg (List.map Value.double) (range_map_getD b (0 : R))
  simpa [List.map_map, Function.comp_def] using h

theorem write_W_loop (W : Matrix R) (bot : Bottle R) :
    forUp W.rows (fun r bot => forUp W.cols (fun c bot => Bottle.addDouble bot (W.get r c)) bot) bot
      = bot ++ W.rowMajor.map Value.double := by
  have h := forUp_nest (fun _ : Bottle R => True) W.cols (fun _ => W.cols)
    (fun r c bot => Bottle.addDouble bot (W.get r c))
    (fun k bot => Bottle.addDouble bot (W.data.getD k 0))
    (fun _ _ => rfl) (fun r c s _ => rfl) (fun _ _ _ => trivial) W.rows bot trivial
  rw [h, forUp_addDouble, Matrix.rowMajor_eq_range]
  simp [List.map_map, Function.comp_def]

/-- Closed form of `writeBottle`: the tokens of this class are appended to the
stream and the base class writes after them. -/
theorem writeBottle_eq (B : Base R) (T : Instance R) (bot : Bottle R) :
    writeBottle B T bot = B.writeBottle T
      (bot ++ ([Value.double T.gamma] ++ T.b.map Value.double ++ [Value.int T.b.length]
        ++ T.W.rowMajor.map Value.double ++ [Value.int T.W.rows, Value.int T.W.cols])) := by
  simp only [writeBottle, write_b_loop, write_W_loop]
  simp [Bottle.addDouble, Bottle.addInt, getGamma, List.append_assoc]

/-! ## Reading -/

theorem Bottle.pop_append_singleton (S : Bottle R) (v : Value R) :
    Bottle.pop (S ++ [v]) = (v, S) := by
  simp [Bottle.pop]

theorem drop_set_self {α : Type} (l : List α) (k : Nat) (x : α) (h : k < l.length) :
    (l.set k x).drop k = x :: l.drop (k + 1) := by
  apply List.ext_getElem
  · simp; omega
  · intro i h1 h2
    simp only [List.getElem_drop, List.getElem_set]
    cases i with
    | zero => simp
    | succ i => simp; congr 1; omega

/-- The loop that pops a vector restores the pushed entries. -/
theorem readPhase_loop (D : List R) (S : Bottle R) (d : Vec R) (h : D.length ≤ d.length) :
    forDown D.length readPhase (S ++ D.map Value.double, d) = (S, D ++ d.drop D.length) := by
  induction D using List.reverseRecOn generalizing d with
  | nil => simp [forDown]
  | append_singleton D x ih =>
    simp only [List.length_append, List.length_singleton] at h ⊢
    show forDown D.length readPhase (readPhase D.length (S ++ List.map Value.double (D ++ [x]), d)) = _
    have hstep : readPhase D.length (S ++ List.map Value.double (D ++ [x]), d)
        = (S ++ D.map Value.double, d.set D.length x) := by
      simp only [readPhase, List.map_append, List.map_singleton, ← List.append_assoc,
        Bottle.pop_append_singleton, Value.asDouble]
    rw [hstep, ih _ (by simp; omega), drop_set_self _ _ _ (by omega)]
    simp

theorem forDown_readFlat (k : Nat) (bot : Bottle R) (M : Matrix R) :
    forDown k readFlat (bot, M)
      = ((forDown k readPhase (bot, M.data)).1,
          { M with data := (forDown k readPhase (bot, M.data)).2 }) := by
  induction k generalizing bot M with
  | zero => rfl
  | succ k ih =>
    show forDown k readFlat (readFlat k (bot, M)) = _
    rw [readFlat, ih]
    rfl

theorem read_W_loop (W : Matrix R) (bot : Bottle R) :
    forDown W.rows (fun r st => forDown st.2.cols (readCell r) st) (bot, W)
      = forDown (W.rows * W.cols) readFlat (bot, W) :=
  forDown_nest (fun st : Bottle R × Matrix R => st.2.cols = W.cols) W.cols (fun st => st.2.cols)
    readCell readFlat (fun _ h => h)
    (fun r c st h => by simp [readCell, readFlat, readPhase, Matrix.set, h])
    (fun k st h => by simpa [readFlat] using h) W.rows (bot, W) rfl

theorem popDims_append (A : Arith R) (ord : ArgOrder) (X : Bottle R) (r c : Int) :
    popDims A ord (X ++ [Value.int r, Value.int c])
      = match ord with
        | .rightToLeft => (r, c, X)
        | .leftToRight => (c, r, X) := by
  have h : X ++ [Value.int r, Value.int c] = (X ++ [Value.int r]) ++ [Value.int c] := by simp
  cases ord <;> simp only [popDims, h, Bottle.pop_append_singleton, Value.asInt]

theorem Matrix.resize_data_length (r c : Nat) (M : Matrix R) :
    (M.resize r c).data.length = r * c := by
  simp [Matrix.resize]

theorem Vec.resize_length (n : Nat) (v : Vec R) : (Vec.resize n v).length = n := by
  simp [Vec.resize]
  omega

/-- The part of `readBottle` after the base class: a matrix of shape `rr × cc` with
storage `Dw`, a vector `Db` and `gamma` are popped from the tokens that
`writeBottle` lays out. -/
theorem readOwn_tokens (W0 : Matrix R) (S : Bottle R) (g : R) (Db Dw : List R)
    (rr cc : Nat) (hlen : Dw.length = rr * cc) :
    let W := W0.resize rr cc
    let bw := forDown W.rows (fun r st => forDown st.2.cols (readCell r) st)
      (S ++ [Value.double g] ++ Db.map Value.double ++ [Value.int Db.length]
        ++ Dw.map Value.double, W)
    bw.2 = ⟨rr, cc, Dw⟩ ∧
      bw.1 = S ++ [Value.double g] ++ Db.map Value.double ++ [Value.int Db.length] := by
  intro W bw
  have hbw : bw = (S ++ [Value.double g] ++ Db.map Value.double ++ [Value.int Db.length],
      ⟨rr, cc, Dw⟩) := by
    show forDown W.rows (fun r st => forDown st.2.cols (readCell r) st) _ = _
    rw [read_W_loop, forDown_readFlat]
    have hrc : W.rows * W.cols = Dw.length := by rw [hlen]; rfl
    have hd : Dw.length ≤ W.data.length := by
      rw [Matrix.resize_data_length, hlen]
    rw [hrc, readPhase_loop Dw _ W.data hd]
    have hdrop : List.drop Dw.length W.data = [] := by
      apply List.drop_eq_nil_of_le
      rw [Matrix.resize_data_length, hlen]
    rw [hdrop]
    simp [W, Matrix.resize]
  rw [hbw]
  exact ⟨rfl, rfl⟩

/-- Effect of `readBottle` on a stream on which, after the base class has read, the
tokens laid out by `writeBottle` are on top. -/
theorem readBottle_tokens (A : Arith R) (ord : ArgOrder) (B : Base R) (bot : Bottle R)
    (T0 : Instance R) (S : Bottle R) (g : R) (Db Dw : List R) (r c : Nat)
    (hbase : (B.readBottle bot T0).1 = S ++ ([Value.double g] ++ Db.map Value.double
      ++ [Value.int Db.length] ++ Dw.map Value.double ++ [Value.int r, Value.int c]))
    (hlen : Dw.length = r * c) :
    readBottle A ord B bot T0
      = (S, { (B.readBottle bot T0).2 with
                W := (match ord with
                  | .rightToLeft => ⟨r, c, Dw⟩
                  | .leftToRight => ⟨c, r, Dw⟩)
                b := Db
                gamma := g }) := by
  have hb2 : (B.readBottle bot T0).1 = (S ++ [Value.double g] ++ Db.map Value.double
      ++ [Value.int Db.length] ++ Dw.map Value.double) ++ [Value.int (r : Int), Value.int (c : Int)] := by
    rw [hbase]; simp
  have hphase : ∀ b0 : Vec R, forDown (Vec.resize Db.length b0).length readPhase
      ((S ++ [Value.double g]) ++ Db.map Value.double, Vec.resize Db.length b0)
        = (S ++ [Value.double g], Db) := by
    intro b0
    have hl := Vec.resize_length Db.length b0
    rw [hl, readPhase_loop Db _ _ (by rw [hl])]
    have hdrop : List.drop Db.length (Vec.resize Db.length b0) = [] :=
      List.drop_eq_nil_of_le (by rw [hl])
    simp [hdrop]
  cases ord
  · have hW := readOwn_tokens (B.readBottle bot T0).2.W S g Db Dw c r
      (by rw [hlen, Nat.mul_comm])
    simp only [readBottle, hb2, popDims_append, Int.toNat_ofNat]
    simp only [hW.1, hW.2, Bottle.pop_append_singleton, Value.asInt, Int.toNat_ofNat, hphase,
      Value.asDouble]
  · have hW := readOwn_tokens (B.readBottle bot T0).2.W S g Db Dw r c hlen
    simp only [readBottle, hb2, popDims_append, Int.toNat_ofNat]
    simp only [hW.1, hW.2, Bottle.pop_append_singleton, Value.asInt, Int.toNat_ofNat, hphase,
      Value.asDouble]

/-- Reading back what `writeBottle` wrote: the stream is restored, `b` and `gamma`
are restored, and `W` gets the written storage with the shape fixed by the order
in which the two dimension pops are evaluated. -/
theorem readBottle_writeBottle (A : Arith R) (ord : ArgOrder) (B : Base R) (T T0 : Instance R)
    (S : Bottle R) (hW : T.W.WellFormed)
    (hbase : ∀ bot, (B.readBottle (B.writeBottle T bot) T0).1 = bot) :
    readBottle A ord B (writeBottle B T S) T0
      = (S, { (B.readBottle (writeBottle B T S) T0).2 with
                W := (match ord with
                  | .rightToLeft => ⟨T.W.rows, T.W.cols, T.W.data⟩
                  | .leftToRight => ⟨T.W.cols, T.W.rows, T.W.data⟩)
                b := T.b
                gamma := T.gamma }) := by
  apply readBottle_tokens
  · rw [writeBottle_eq, hbase, Matrix.rowMajor_eq_data _ hW]
  · exact hW

/-- Round trip of the state codec when the column pop is evaluated before the row
pop, and for square matrices under either order. -/
theorem readBottle_writeBottle_roundtrip (A : Arith R) (ord : ArgOrder) (B : Base R)
    (T T0 : Instance R) (S : Bottle R) (hW : T.W.WellFormed)
    (hbase : ∀ bot, (B.readBottle (B.writeBottle T bot) T0).1 = bot)
    (hord : ord = ArgOrder.rightToLeft ∨ T.W.rows = T.W.cols) :
    (readBottle A ord B (writeBottle B T S) T0).1 = S ∧
      (readBottle A ord B (writeBottle B T S) T0).2.gamma = T.gamma ∧
      (readBottle A ord B (writeBottle B T S) T0).2.W = T.W ∧
      (readBottle A ord B (writeBottle B T S) T0).2.b = T.b := by
  rw [readBottle_writeBottle A ord B T T0 S hW hbase]
  refine ⟨rfl, rfl, ?_, rfl⟩
  cases ord with
  | rightToLeft => rfl
  | leftToRight =>
    rcases hord with h | h
    · cases h
    · show (⟨T.W.cols, T.W.rows, T.W.data⟩ : Matrix R) = ⟨T.W.rows, T.W.cols, T.W.data⟩
      rw [h]

/-- C1 (failing behaviour): when the two pops in
`W.resize(bot.pop().asInt(), bot.pop().asInt())` are evaluated left to right, reading
back a written instance restores `gamma`, `b` and the stream, but `W` comes back with
the row and column counts exchanged, so a non-square `W` is not restored. -/
theorem readBottle_leftToRight_swaps_shape (A : Arith R) (B : Base R) (T T0 : Instance R)
    (S : Bottle R) (hW : T.W.WellFormed)
    (hbase : ∀ bot, (B.readBottle (B.writeBottle T bot) T0).1 = bot)
    (hns : T.W.rows ≠ T.W.cols) :
    (readBottle A ArgOrder.leftToRight B (writeBottle B T S) T0).2.W.rows = T.W.cols ∧
      (readBottle A ArgOrder.leftToRight B (writeBottle B T S) T0).2.W.cols = T.W.rows ∧
      (readBottle A ArgOrder.leftToRight B (writeBottle B T S) T0).2.W ≠ T.W ∧
      (readBottle A ArgOrder.leftToRight B (writeBottle B T S) T0).2.b = T.b ∧
      (readBottle A ArgOrder.leftToRight B (writeBottle B T S) T0).2.gamma = T.gamma := by
  rw [readBottle_writeBottle A ArgOrder.leftToRight B T T0 S hW hbase]
  refine ⟨rfl, rfl, ?_, rfl, rfl⟩
  intro h
  exact hns (congrArg Matrix.rows h).symm

/-- C1 (failing input): a 1 × 2 matrix written and read back with left-to-right
evaluation comes back as a 2 × 1 matrix. -/
theorem readBottle_leftToRight_swaps_shape_witness :
    (readBottle (Arith.mk (fun x : ℚ => x) (fun x => x) (fun x => x.floor)) ArgOrder.leftToRight
        (Base.mk (fun _ bot => bot) (fun bot T => (bot, T)) (fun _ T => (false, T)))
        (writeBottle (Base.mk (fun _ bot => bot) (fun bot T => (bot, T)) (fun _ T => (false, T)))
          (Instance.mk "RandomFeature" 2 1 2 (Matrix.mk 1 2 [1, 2]) [7]) [])
        (Instance.mk "RandomFeature" 0 0 0 (Matrix.mk 0 0 []) [])).2.W.rows = 2 ∧
    (readBottle (Arith.mk (fun x : ℚ => x) (fun x => x) (fun x => x.floor)) ArgOrder.leftToRight
        (Base.mk (fun _ bot => bot) (fun bot T => (bot, T)) (fun _ T => (false, T)))
        (writeBottle (Base.mk (fun _ bot => bot) (fun bot T => (bot, T)) (fun _ T => (false, T)))
          (Instance.mk "RandomFeature" 2 1 2 (Matrix.mk 1 2 [1, 2]) [7]) [])
        (Instance.mk "RandomFeature" 0 0 0 (Matrix.mk 0 0 []) [])).2.W
      ≠ Matrix.mk 1 2 [1, 2] :=
  have h := readBottle_leftToRight_swaps_shape
    (Arith.mk (fun x : ℚ => x) (fun x => x) (fun x => x.floor))
    (Base.mk (fun _ bot => bot) (fun bot T => (bot, T)) (fun _ T => (false, T)))
    (Instance.mk "RandomFeature" 2 1 2 (Matrix.mk 1 2 [1, 2]) [7])
    (Instance.mk "RandomFeature" 0 0 0 (Matrix.mk 0 0 []) []) []
    rfl (fun _ => rfl) (by decide)
  ⟨h.1, h.2.2.1⟩

/-- C5: `writeBottle` appends, in this order, `gamma`, the entries of `b`, the length
of `b`, the entries of `W` row by row, the row count and the column count, and only
then lets the base class write; these are `m * n + m + 4` tokens and the earlier
content of the stream stays in front of them. -/
theorem writeBottle_layout (B : Base R) (T : Instance R) (bot : Bottle R) (m n : Nat)
    (hrows : T.W.rows = m) (hcols : T.W.cols = n) (hb : T.b.length = m) :
    writeBottle B T bot = B.writeBottle T
      (bot ++ ([Value.double T.gamma] ++ T.b.map Value.double ++ [Value.int m]
        ++ T.W.rowMajor.map Value.double ++ [Value.int m, Value.int n])) ∧
    ([Value.double T.gamma] ++ T.b.map Value.double ++ [Value.int m]
        ++ T.W.rowMajor.map Value.double ++ [Value.int m, Value.int n]).length = m * n + m + 4 := by
  constructor
  · rw [writeBottle_eq, hrows, hcols, hb]
  · have hl : T.W.rowMajor.length = m * n := by
      rw [Matrix.rowMajor_eq_range, hrows, hcols]
      simp
    simp [hl, hb]
    omega

/-- C5 (witness): `gamma = 2.0`, `W = [[3.0]]`, `b = [1.5708]` is written as
`2.0, 1.5708, 1, 3.0, 1, 1`. -/
theorem writeBottle_layout_witness :
    writeBottle (Base.mk (fun _ bot => bot) (fun bot T => (bot, T)) (fun _ T => (false, T)))
        (Instance.mk "RandomFeature" 1 1 (2 : ℚ) (Matrix.mk 1 1 [3]) [15708 / 10000]) []
      = [Value.double 2, Value.double (15708 / 10000), Value.int 1, Value.double 3,
          Value.int 1, Value.int 1] := by
  have h := (writeBottle_layout
    (Base.mk (fun _ bot => bot) (fun bot T => (bot, T)) (fun _ T => (false, T)))
    (Instance.mk "RandomFeature" 1 1 (2 : ℚ) (Matrix.mk 1 1 [3]) [15708 / 10000]) [] 1 1
    rfl rfl rfl).1
  rw [h]
  simp [Matrix.rowMajor, Matrix.get, List.range_succ]

/-! ## The feature map -/

theorem forUp_set_getElem? (h : R → R) (l : List R) (k i : Nat) :
    (forUp k (fun i out => List.set out i (h (out.getD i 0))) l)[i]?
      = if i < k then l[i]?.map h else l[i]? := by
  induction k generalizing i with
  | zero => simp [forUp]
  | succ k ih =>
    show (List.set (forUp k _ l) k (h ((forUp k _ l).getD k 0)))[i]? = _
    rw [List.getElem?_set', List.getD_eq_getElem?_getD, ih k, ih i]
    by_cases hik : k = i
    · subst hik
      simp
      cases l[k]? <;> simp
    · have : (i < k + 1) = (i < k) := by
        apply propext
        omega
      simp [hik, this]

/-- The normalising loop of `transform` applies its body to every entry. -/
theorem forUp_set_map (h : R → R) (l : List R) :
    forUp l.length (fun i out => List.set out i (h (out.getD i 0))) l = l.map h := by
  apply List.ext_getElem?
  intro i
  rw [forUp_set_getElem?, List.getElem?_map]
  by_cases hi : i < l.length
  · simp [hi]
  · simp [hi, List.getElem?_eq_none (Nat.le_of_not_lt hi)]

/-- Closed form of `transform` on an input of the right length. -/
theorem transform_eq (A : Arith R) (T : Instance R) (x : Vec R) (hx : x.length = T.domainSize) :
    transform A T x = .ok ((Vec.add (T.W.mulVec x) T.b).map
      (fun v => A.cos v / A.sqrt (T.coDomainSize : R))) := by
  simp only [transform, IFixedSizeTransformer.transform, hx, if_true]
  rw [forUp_set_map (fun v => A.cos v / A.sqrt (T.coDomainSize : R))]

theorem list_sum_range (f : Nat → R) (n : Nat) :
    ((List.range n).map f).sum = ∑ c ∈ Finset.range n, f c := by
  induction n with
  | zero => simp
  | succ n ih => rw [List.range_succ, List.map_append, List.sum_append, ih, Finset.sum_range_succ]; simp

/-- C2: on an input of length `n = domainSize`, with `W` of shape `m × n` and `b` of
length `m = coDomainSize`, `transform` returns a vector of length `m` whose `i`-th
entry is `cos((Σ_c W(i,c) * x(c)) + b(i)) / sqrt(m)`. -/
theorem transform_formula (A : Arith R) (T : Instance R) (x : Vec R) (m n : Nat)
    (hrows : T.W.rows = m) (hcols : T.W.cols = n) (hb : T.b.length = m)
    (hdom : T.domainSize = n) (hcod : T.coDomainSize = m) (hx : x.length = n) :
    ∃ out, transform A T x = .ok out ∧ out.length = m ∧ T.b.length = out.length ∧
      ∀ i, i < m → out.getD i 0
        = A.cos ((∑ c ∈ Finset.range n, T.W.get i c * x.getD c 0) + T.b.getD i 0)
            / A.sqrt (m : R) := by
  refine ⟨_, transform_eq A T x (hx.trans hdom.symm), ?_, ?_, ?_⟩
  · simp [Vec.add, Matrix.mulVec, hrows]
  · simp [Vec.add, Matrix.mulVec, hrows, hb]
  · intro i hi
    simp [Vec.add, Matrix.mulVec, hrows, hcols, hcod, hi, List.getElem?_range, list_sum_range]

/-- C2 (witness): the scenario `n = 2`, `m = 3`, `x = [1, 1]` of the specification;
entry 0 of the result is `cos(0.1 - 0.2 + 0) / sqrt 3`. -/
theorem transform_formula_witness :
    ∃ out : Vec ℝ,
      transform (Arith.mk Real.cos Real.sqrt (fun x => if 0 ≤ x then ⌊x⌋ else ⌈x⌉))
        (Instance.mk "RandomFeature" 2 3 (1 / 2)
          (Matrix.mk 3 2 [1 / 10, -2 / 10, 3 / 10, 5 / 100, -15 / 100, 25 / 100])
          [0, Real.pi / 2, Real.pi]) [1, 1] = .ok out ∧
      out.length = 3 ∧
      out.getD 0 0 = Real.cos (-1 / 10) / Real.sqrt 3 := by
  obtain ⟨out, h1, h2, _, h4⟩ := transform_formula
    (Arith.mk Real.cos Real.sqrt (fun x => if 0 ≤ x then ⌊x⌋ else ⌈x⌉))
    (Instance.mk "RandomFeature" 2 3 (1 / 2)
      (Matrix.mk 3 2 [1 / 10, -2 / 10, 3 / 10, 5 / 100, -15 / 100, 25 / 100])
      [0, Real.pi / 2, Real.pi]) [1, 1] 3 2 rfl rfl rfl rfl rfl rfl
  refine ⟨out, h1, h2, ?_⟩
  rw [h4 0 (by norm_num)]
  simp only [Finset.sum_range_succ, Finset.sum_range_zero, Matrix.get]
  norm_num

/-- C3: on an input whose length differs from the domain size `transform` fails with
a dimension mismatch and returns no vector. -/
theorem transform_dimension_mismatch (A : Arith R) (T : Instance R) (x : Vec R)
    (hx : x.length ≠ T.domainSize) :
    transform A T x = .error Error.DimensionMismatch := by
  simp [transform, IFixedSizeTransformer.transform, hx]

/-- C3 (witness): domain size 2, inputs of length 0 and of length 3. -/
theorem transform_dimension_mismatch_witness :
    transform (Arith.mk Real.cos Real.sqrt (fun x => if 0 ≤ x then ⌊x⌋ else ⌈x⌉))
        (Instance.mk "RandomFeature" 2 1 (1 / 2) (Matrix.mk 1 2 [1, 2]) [0]) []
      = .error Error.DimensionMismatch ∧
    transform (Arith.mk Real.cos Real.sqrt (fun x => if 0 ≤ x then ⌊x⌋ else ⌈x⌉))
        (Instance.mk "RandomFeature" 2 1 (1 / 2) (Matrix.mk 1 2 [1, 2]) [0]) [1, 2, 3]
      = .error Error.DimensionMismatch :=
  ⟨transform_dimension_mismatch _ _ _ (by decide), transform_dimension_mismatch _ _ _ (by decide)⟩

/-- C10: under the shape invariant, with co-domain size 0 `transform` returns the
empty vector for every input of the right length, whatever `sqrt` and the division
do (the normalising loop runs over a vector of length 0); with domain size 0 and
co-domain size `m > 0`, `transform` of the empty input returns the `m` entries
`cos(b(i)) / sqrt(m)`. -/
theorem transform_degenerate (A : Arith R) (T : Instance R) (x : Vec R) (hs : ShapeOK T)
    (hx : x.length = T.domainSize) :
    (T.coDomainSize = 0 →
      transform A T x = .ok [] ∧ (Vec.add (T.W.mulVec x) T.b).length = 0) ∧
    (T.domainSize = 0 → 0 < T.coDomainSize →
      x = [] ∧
      transform A T x = .ok (T.b.map (fun v => A.cos v / A.sqrt (T.coDomainSize : R))) ∧
      (T.b.map (fun v => A.cos v / A.sqrt (T.coDomainSize : R))).length = T.coDomainSize) := by
  obtain ⟨hr, hc, _, hb⟩ := hs
  constructor
  · intro h0
    rw [transform_eq A T x hx]
    simp [Vec.add, Matrix.mulVec, hr, h0]
  · intro h0 _
    refine ⟨List.length_eq_zero.mp (hx.trans h0), ?_, by simp [hb]⟩
    rw [transform_eq A T x hx]
    have hadd : Vec.add (T.W.mulVec x) T.b = T.b := by
      have h1 : Vec.add (T.W.mulVec x) T.b = (List.range T.b.length).map (fun k => T.b.getD k 0) := by
        simp only [Vec.add, Matrix.mulVec, hr, hc, h0, hb, List.length_map, List.length_range]
        apply List.map_congr_left
        intro k hk
        simp [List.mem_range.mp hk, List.getElem?_range]
      rw [h1, range_map_getD]
    rw [hadd]

/-- C10 (witness): a `0 × 2` instance on `[1, 2]`, and a `2 × 0` instance on `[]`. -/
theorem transform_degenerate_witness :
    transform (Arith.mk Real.cos Real.sqrt (fun x => if 0 ≤ x then ⌊x⌋ else ⌈x⌉))
        (Instance.mk "RandomFeature" 2 0 (1 / 2) (Matrix.mk 0 2 []) []) [1, 2] = .ok [] ∧
    transform (Arith.mk Real.cos Real.sqrt (fun x => if 0 ≤ x then ⌊x⌋ else ⌈x⌉))
        (Instance.mk "RandomFeature" 0 2 (1 / 2) (Matrix.mk 2 0 []) [0, Real.pi]) []
      = .ok [Real.cos 0 / Real.sqrt 2, Real.cos Real.pi / Real.sqrt 2] := by
  constructor
  · exact ((transform_degenerate
      (Arith.mk Real.cos Real.sqrt (fun x => if 0 ≤ x then ⌊x⌋ else ⌈x⌉))
      (Instance.mk "RandomFeature" 2 0 (1 / 2) (Matrix.mk 0 2 []) []) [1, 2]
      ⟨rfl, rfl, rfl, rfl⟩ rfl).1 rfl).1
  · have h := ((transform_degenerate
      (Arith.mk Real.cos Real.sqrt (fun x => if 0 ≤ x then ⌊x⌋ else ⌈x⌉))
      (Instance.mk "RandomFeature" 0 2 (1 / 2) (Matrix.mk 2 0 []) [0, Real.pi]) []
      ⟨rfl, rfl, rfl, rfl⟩ rfl).2 rfl (by decide)).2.1
    rw [h]
    simp

/-! ## Basis generation -/

theorem fill_loop_aux (a : R) (d : Vec R) (g : Sampler R) (k : Nat) :
    (forUp k (fill a) (d, g)).2 = ⟨g.seq, g.pos + k⟩ ∧
      ∀ i, (forUp k (fill a) (d, g)).1[i]?
        = if i < k then d[i]?.map (fun _ => a * g.seq (g.pos + i)) else d[i]? := by
  induction k with
  | zero => exact ⟨rfl, fun i => by simp [forUp]⟩
  | succ k ih =>
    obtain ⟨ih2, ih1⟩ := ih
    constructor
    · show (fill a k (forUp k (fill a) (d, g))).2 = _
      simp [fill, Sampler.get, ih2, Nat.add_assoc]
    · intro i
      show (fill a k (forUp k (fill a) (d, g))).1[i]? = _
      simp only [fill, Sampler.get, ih2, List.getElem?_set', ih1]
      by_cases hik : k = i
      · subst hik
        simp
        cases d[k]? <;> simp
      · have : (i < k + 1) = (i < k) := by
          apply propext
          omega
        simp [hik, this]

/-- The filling loop over a storage of `k` cells writes `a` times the draws, in order. -/
theorem fill_loop (a : R) (d : Vec R) (g : Sampler R) (k : Nat) (hk : d.length = k) :
    forUp k (fill a) (d, g)
      = ((List.range k).map (fun i => a * g.seq (g.pos + i)), ⟨g.seq, g.pos + k⟩) := by
  obtain ⟨h2, h1⟩ := fill_loop_aux a d g k
  apply Prod.ext
  · apply List.ext_getElem?
    intro i
    rw [h1 i]
    by_cases hi : i < k
    · simp [hi, List.getElem?_range, List.getElem?_eq_getElem (hk ▸ hi)]
    · simp [hi, List.getElem?_eq_none (Nat.le_of_not_lt (hk ▸ hi)),
        List.getElem?_eq_none, Nat.le_of_not_lt hi]
  · exact h2

theorem forUp_fillFlat (a : R) (k : Nat) (M : Matrix R) (g : Sampler R) :
    forUp k (fillFlat a) (M, g)
      = ({ M with data := (forUp k (fill a) (M.data, g)).1 }, (forUp k (fill a) (M.data, g)).2) := by
  induction k with
  | zero => rfl
  | succ k ih =>
    show fillFlat a k (forUp k (fillFlat a) (M, g)) = _
    rw [ih]
    rfl

theorem reset_W_loop (a : R) (W : Matrix R) (g : Sampler R) :
    forUp W.rows (fun r st => forUp st.1.cols (resetCell a r) st) (W, g)
      = forUp (W.rows * W.cols) (fillFlat a) (W, g) :=
  forUp_nest (fun st : Matrix R × Sampler R => st.1.cols = W.cols) W.cols (fun st => st.1.cols)
    (resetCell a) (fillFlat a) (fun _ h => h)
    (fun r c st h => by simp [resetCell, fillFlat, fill, Matrix.set, h])
    (fun k st h => by simpa [fillFlat] using h) W.rows (W, g) rfl

/-- Closed form of `reset`: the new matrix, the new phase vector and the number of
draws taken from each generator. -/
theorem resetRun_eq (A : Arith R) (d : Draws R) (T : Instance R) :
    resetRun A d T
      = ({ T with
            W := ⟨T.coDomainSize, T.domainSize,
              (List.range (T.coDomainSize * T.domainSize)).map
                (fun k => A.sqrt (2 * T.gamma) * d.normal k)⟩
            b := (List.range T.coDomainSize).map (fun i => TWOPI * d.uniform i) },
          ⟨d.normal, T.coDomainSize * T.domainSize⟩, ⟨d.uniform, T.coDomainSize⟩) := by
  have hW : forUp (T.W.resize T.coDomainSize T.domainSize).rows
      (fun r st => forUp st.1.cols (resetCell (A.sqrt (2 * T.gamma)) r) st)
      (T.W.resize T.coDomainSize T.domainSize, (⟨d.normal, 0⟩ : Sampler R))
      = (⟨T.coDomainSize, T.domainSize, (List.range (T.coDomainSize * T.domainSize)).map
          (fun k => A.sqrt (2 * T.gamma) * d.normal k)⟩,
         ⟨d.normal, T.coDomainSize * T.domainSize⟩) := by
    rw [reset_W_loop, forUp_fillFlat]
    have hrc : (T.W.resize T.coDomainSize T.domainSize).rows
        * (T.W.resize T.coDomainSize T.domainSize).cols = T.coDomainSize * T.domainSize := rfl
    rw [hrc, fill_loop _ _ _ _ (Matrix.resize_data_length _ _ _)]
    simp [Matrix.resize]
  have hb : forUp (Vec.resize T.coDomainSize T.b).length resetPhase
      (Vec.resize T.coDomainSize T.b, (⟨d.uniform, 0⟩ : Sampler R))
      = ((List.range T.coDomainSize).map (fun i => TWOPI * d.uniform i),
         ⟨d.uniform, T.coDomainSize⟩) := by
    have hfill : (resetPhase : Nat → Vec R × Sampler R → Vec R × Sampler R) = fill TWOPI := rfl
    rw [hfill, Vec.resize_length, fill_loop _ _ _ _ (Vec.resize_length _ _)]
    simp
  simp only [resetRun, IFixedSizeTransformer.reset, hW, hb]

/-- C6: `reset` sets `W(r, c) = sqrt(2 * gamma) * z (r * n + c)` for `r < m`, `c < n`,
where `z` lists the draws of the normal generator; `W` is `m × n` with its storage
filled in row-major draw order, exactly `m * n` draws are taken, and the previous
contents of `W` play no part. -/
theorem reset_W_entries (A : Arith R) (d : Draws R) (T : Instance R) (m n : Nat)
    (hm : T.coDomainSize = m) (hn : T.domainSize = n) (hg : 0 ≤ T.gamma) :
    (resetRun A d T).1.W.rows = m ∧ (resetRun A d T).1.W.cols = n ∧
      (resetRun A d T).1.W
        = ⟨m, n, (List.range (m * n)).map (fun k => A.sqrt (2 * T.gamma) * d.normal k)⟩ ∧
      (∀ r c, r < m → c < n →
        (resetRun A d T).1.W.get r c = A.sqrt (2 * T.gamma) * d.normal (r * n + c)) ∧
      (resetRun A d T).2.1.pos = m * n ∧
      (∀ W0 : Matrix R, (resetRun A d { T with W := W0 }).1.W = (resetRun A d T).1.W) ∧
      0 ≤ (resetRun A d T).1.gamma := by
  subst hm hn
  refine ⟨by rw [resetRun_eq], by rw [resetRun_eq], by rw [resetRun_eq], ?_,
    by rw [resetRun_eq], fun W0 => by rw [resetRun_eq, resetRun_eq], by rw [resetRun_eq]; exact hg⟩
  intro r c hr hc
  have hlt : r * T.domainSize + c < T.coDomainSize * T.domainSize := by
    calc r * T.domainSize + c < r * T.domainSize + T.domainSize := by omega
      _ = (r + 1) * T.domainSize := by rw [Nat.succ_mul]
      _ ≤ T.coDomainSize * T.domainSize := Nat.mul_le_mul_right _ hr
  rw [resetRun_eq]
  simp [Matrix.get, hlt, List.getElem?_range]

/-- C6 (witness): `n = 2`, `m = 3`, `gamma = 0.5` and normal draws
`0.1, -0.2, 0.3, 0.05, -0.15, 0.25` give `W = [[0.1, -0.2], [0.3, 0.05], [-0.15, 0.25]]`. -/
theorem reset_W_entries_witness :
    (resetRun (Arith.mk Real.cos Real.sqrt (fun x => if 0 ≤ x then ⌊x⌋ else ⌈x⌉))
      (Draws.mk (fun k => [1 / 10, -2 / 10, 3 / 10, 5 / 100, -15 / 100, 25 / 100].getD k 0)
        (fun k => [0, 1 / 4, 1 / 2].getD k 0))
      (Instance.mk "RandomFeature" 2 3 (1 / 2) (Matrix.mk 0 0 []) [])).1.W
      = Matrix.mk 3 2 [1 / 10, -2 / 10, 3 / 10, 5 / 100, -15 / 100, 25 / 100] := by
  have h := (reset_W_entries (Arith.mk Real.cos Real.sqrt (fun x => if 0 ≤ x then ⌊x⌋ else ⌈x⌉))
    (Draws.mk (fun k => [1 / 10, -2 / 10, 3 / 10, 5 / 100, -15 / 100, 25 / 100].getD k 0)
      (fun k => [0, 1 / 4, 1 / 2].getD k 0))
    (Instance.mk "RandomFeature" 2 3 (1 / 2) (Matrix.mk 0 0 []) []) 3 2 rfl rfl
    (by norm_num)).2.2.1
  rw [h]
  have hs : Real.sqrt (2 * (1 / 2)) = 1 := by norm_num
  simp [List.range_succ, hs]

/-- C7: when every draw of the uniform generator lies in `[0, 1)`, after `reset` the
vector `b` has `coDomainSize` entries, entry `i` is `TWOPI` times the `i`-th draw and
lies in `[0, 2π)`, and exactly `coDomainSize` draws have been taken. -/
theorem reset_phase_range (A : Arith ℝ) (d : Draws ℝ) (T : Instance ℝ)
    (hu : ∀ i, 0 ≤ d.uniform i ∧ d.uniform i < 1) :
    (resetRun A d T).1.b.length = T.coDomainSize ∧
      (resetRun A d T).2.2.pos = T.coDomainSize ∧
      ∀ i, i < T.coDomainSize →
        (resetRun A d T).1.b.getD i 0 = TWOPI * d.uniform i ∧
        0 ≤ (resetRun A d T).1.b.getD i 0 ∧
        (resetRun A d T).1.b.getD i 0 < 2 * Real.pi := by
  rw [resetRun_eq]
  refine ⟨by simp, rfl, ?_⟩
  intro i hi
  have hval : ((List.range T.coDomainSize).map (fun i => (TWOPI : ℝ) * d.uniform i)).getD i 0
      = TWOPI * d.uniform i := by
    simp [hi, List.getElem?_range]
  have hpos : (0 : ℝ) < TWOPI := by unfold TWOPI; norm_num
  have hpi : (TWOPI : ℝ) < 2 * Real.pi := by
    have := Real.pi_gt_d20
    unfold TWOPI
    norm_num at this ⊢
    linarith
  obtain ⟨h0, h1⟩ := hu i
  refine ⟨hval, ?_, ?_⟩
  · rw [hval]
    exact mul_nonneg hpos.le h0
  · rw [hval]
    calc (TWOPI : ℝ) * d.uniform i < TWOPI * 1 := mul_lt_mul_of_pos_left h1 hpos
      _ = TWOPI := mul_one _
      _ < 2 * Real.pi := hpi

/-- C7 (witness): co-domain size 3 and uniform draws `0, 0.25, 0.5`; entry 1 of `b` is
a quarter of `TWOPI` and lies below `2π`. -/
theorem reset_phase_range_witness :
    (resetRun (Arith.mk Real.cos Real.sqrt (fun x => if 0 ≤ x then ⌊x⌋ else ⌈x⌉))
        (Draws.mk (fun k => [1 / 10, -2 / 10, 3 / 10, 5 / 100, -15 / 100, 25 / 100].getD k 0)
          (fun k => [0, 1 / 4, 1 / 2].getD k 0))
        (Instance.mk "RandomFeature" 2 3 (1 / 2) (Matrix.mk 0 0 []) [])).1.b.getD 1 0
      = TWOPI * (1 / 4) ∧
    (resetRun (Arith.mk Real.cos Real.sqrt (fun x => if 0 ≤ x then ⌊x⌋ else ⌈x⌉))
        (Draws.mk (fun k => [1 / 10, -2 / 10, 3 / 10, 5 / 100, -15 / 100, 25 / 100].getD k 0)
          (fun k => [0, 1 / 4, 1 / 2].getD k 0))
        (Instance.mk "RandomFeature" 2 3 (1 / 2) (Matrix.mk 0 0 []) [])).1.b.getD 1 0
      < 2 * Real.pi := by
  have h := (reset_phase_range
    (Arith.mk Real.cos Real.sqrt (fun x => if 0 ≤ x then ⌊x⌋ else ⌈x⌉))
    (Draws.mk (fun k => [1 / 10, -2 / 10, 3 / 10, 5 / 100, -15 / 100, 25 / 100].getD k 0)
      (fun k => [0, 1 / 4, 1 / 2].getD k 0))
    (Instance.mk "RandomFeature" 2 3 (1 / 2) (Matrix.mk 0 0 []) [])
    (by
      intro i
      rcases i with _ | _ | _ | i <;> simp <;> norm_num)).2.2 1 (by norm_num)
  refine ⟨?_, h.2.2⟩
  rw [h.1]
  simp

/-! ## Setters and the shape invariant -/

theorem reset_eq (A : Arith R) (d : Draws R) (T : Instance R) :
    reset A d T
      = { T with
            W := ⟨T.coDomainSize, T.domainSize,
              (List.range (T.coDomainSize * T.domainSize)).map
                (fun k => A.sqrt (2 * T.gamma) * d.normal k)⟩
            b := (List.range T.coDomainSize).map (fun i => TWOPI * d.uniform i) } := by
  rw [reset, resetRun_eq]

theorem reset_shape (A : Arith R) (d : Draws R) (T : Instance R) : ShapeOK (reset A d T) := by
  rw [reset_eq]
  simp [ShapeOK]

theorem setGamma_shape (A : Arith R) (d : Draws R) (g : R) (T : Instance R) (h : ShapeOK T) :
    ShapeOK (setGamma A d g T).2 := by
  unfold setGamma
  split
  · exact h
  · exact reset_shape A d _

theorem Call.run_shape (A : Arith R) (c : Call R) (T : Instance R) (h : ShapeOK T) :
    ShapeOK (c.run A T) := by
  cases c with
  | setDomainSize d size => exact reset_shape A d _
  | setCoDomainSize d size => exact reset_shape A d _
  | setGamma d g => exact setGamma_shape A d g T h
  | reset d => exact reset_shape A d _

theorem runCalls_shape (A : Arith R) (calls : List (Call R)) (T : Instance R) (h : ShapeOK T) :
    ShapeOK (runCalls A calls T) := by
  induction calls generalizing T with
  | nil => exact h
  | cons c cs ih => exact ih _ (Call.run_shape A c T h)

/-- C4: after construction with `(dom, cod, gamma)` on any raw object, and after every
further sequence of calls of `setDomainSize`, `setCoDomainSize`, `setGamma` and `reset`,
`W` has `coDomainSize` rows and `domainSize` columns (with storage of that size) and `b`
has `coDomainSize` entries, the sizes being those stored after the last call. -/
theorem shape_invariant (A : Arith R) (d1 d2 d3 : Draws R) (dom cod : Nat) (gamma : R)
    (T0 : Instance R) (calls : List (Call R)) :
    (RandomFeature A d1 d2 d3 dom cod gamma T0).2.domainSize = dom ∧
      (RandomFeature A d1 d2 d3 dom cod gamma T0).2.coDomainSize = cod ∧
      ShapeOK (RandomFeature A d1 d2 d3 dom cod gamma T0).2 ∧
      ShapeOK (runCalls A calls (RandomFeature A d1 d2 d3 dom cod gamma T0).2) ∧
      (runCalls A calls (RandomFeature A d1 d2 d3 dom cod gamma T0).2).W.rows
        = (runCalls A calls (RandomFeature A d1 d2 d3 dom cod gamma T0).2).coDomainSize ∧
      (runCalls A calls (RandomFeature A d1 d2 d3 dom cod gamma T0).2).W.cols
        = (runCalls A calls (RandomFeature A d1 d2 d3 dom cod gamma T0).2).domainSize ∧
      (runCalls A calls (RandomFeature A d1 d2 d3 dom cod gamma T0).2).b.length
        = (runCalls A calls (RandomFeature A d1 d2 d3 dom cod gamma T0).2).coDomainSize := by
  have h0 : ShapeOK (RandomFeature A d1 d2 d3 dom cod gamma T0).2 :=
    setGamma_shape A d3 gamma _ (reset_shape A d2 _)
  have h1 := runCalls_shape A calls _ h0
  refine ⟨?_, ?_, h0, h1, h1.1, h1.2.1, h1.2.2.2⟩
  · simp only [RandomFeature, setGamma, setCoDomainSize, setDomainSize, reset_eq,
      IFixedSizeTransformer.setDomainSize, IFixedSizeTransformer.setCoDomainSize]
    split <;> rfl
  · simp only [RandomFeature, setGamma, setCoDomainSize, setDomainSize, reset_eq,
      IFixedSizeTransformer.setDomainSize, IFixedSizeTransformer.setCoDomainSize]
    split <;> rfl

/-! ## Parameter validation and configuration -/

/-- C8: a negative `gamma` is rejected by the setter, called directly, by the
constructor or by `configure` on a numeric "gamma" option: the call reports an
invalid parameter and the instance is exactly the one the setter received. -/
theorem setGamma_negative_rejected (A : Arith R) (B : Base R) (d d1 d2 d3 : Draws R) (g : R)
    (T T0 : Instance R) (dom cod : Nat) (config : Searchable R) (hg : g < 0)
    (hcfg : config "gamma" = Value.double g ∨
      ∃ i : Int, config "gamma" = Value.int i ∧ (i : R) = g) :
    setGamma A d g T = (.error Error.InvalidParameter, T) ∧
      RandomFeature A d1 d2 d3 dom cod g T0
        = (.error Error.InvalidParameter,
            setCoDomainSize A d2 cod (setDomainSize A d1 dom { T0 with name := "RandomFeature" })) ∧
      configure A B d config T = (.error Error.InvalidParameter, (B.configure config T).2) := by
  have hset : ∀ T : Instance R, setGamma A d g T = (.error Error.InvalidParameter, T) := by
    intro T
    simp [setGamma, hg]
  refine ⟨hset T, by simp [RandomFeature, setGamma, hg], ?_⟩
  rcases hcfg with h | ⟨i, h, hi⟩
  · simp [configure, h, Value.isDouble, Value.asDouble, hset]
  · simp [configure, h, Value.isDouble, Value.isInt, Value.asDouble, hi, hset]

/-- C8 (witness): `gamma = -1` supplied directly, to the constructor and as an option. -/
theorem setGamma_negative_rejected_witness :
    (setGamma (Arith.mk (fun x : ℚ => x) (fun x => x) (fun x => x.floor))
        (Draws.mk (fun _ => 1) (fun _ => 1 / 2)) (-1)
        (Instance.mk "RandomFeature" 1 1 2 (Matrix.mk 1 1 [3]) [1])).2.gamma = 2 ∧
    (configure (Arith.mk (fun x : ℚ => x) (fun x => x) (fun x => x.floor))
        (Base.mk (fun _ bot => bot) (fun bot T => (bot, T)) (fun _ T => (false, T)))
        (Draws.mk (fun _ => 1) (fun _ => 1 / 2))
        (fun key => if key = "gamma" then Value.double (-1) else Value.null)
        (Instance.mk "RandomFeature" 1 1 2 (Matrix.mk 1 1 [3]) [1])).2.W = Matrix.mk 1 1 [3] := by
  have h := setGamma_negative_rejected (Arith.mk (fun x : ℚ => x) (fun x => x) (fun x => x.floor))
    (Base.mk (fun _ bot => bot) (fun bot T => (bot, T)) (fun _ T => (false, T)))
    (Draws.mk (fun _ => 1) (fun _ => 1 / 2)) (Draws.mk (fun _ => 1) (fun _ => 1 / 2))
    (Draws.mk (fun _ => 1) (fun _ => 1 / 2)) (Draws.mk (fun _ => 1) (fun _ => 1 / 2)) (-1)
    (Instance.mk "RandomFeature" 1 1 2 (Matrix.mk 1 1 [3]) [1])
    (Instance.mk "" 0 0 0 (Matrix.mk 0 0 []) []) 1 1
    (fun key => if key = "gamma" then Value.double (-1) else Value.null)
    (by norm_num) (Or.inl (by simp))
  exact ⟨by rw [h.1], by rw [h.2.2]⟩

theorem transformRun_fst (A : Arith R) (T : Instance R) (x : Vec R) :
    (transformRun A T x).1 = transform A T x := by
  unfold transformRun transform
  cases IFixedSizeTransformer.transform T x <;> rfl

theorem transformRun_snd (A : Arith R) (T : Instance R) (x : Vec R) :
    (transformRun A T x).2 = T := by
  unfold transformRun
  cases IFixedSizeTransformer.transform T x <;> rfl

/-- The result of `transform` is a function of `W`, `b`, the two sizes and the input. -/
theorem transform_congr (A : Arith R) (T T2 : Instance R) (x : Vec R) (hW : T2.W = T.W)
    (hb : T2.b = T.b) (hd : T2.domainSize = T.domainSize)
    (hc : T2.coDomainSize = T.coDomainSize) : transform A T2 x = transform A T x := by
  simp only [transform, IFixedSizeTransformer.transform, hW, hb, hd, hc]

/-- C11: a call of `transform` leaves the object (`W`, `b`, `gamma`, both sizes) as it
was, takes no generator and hence no draw, and a second call with the same input
returns the same result; the result depends on the object only through `W`, `b` and
the two sizes. -/
theorem transform_pure (A : Arith R) (T : Instance R) (x : Vec R) :
    (transformRun A T x).2 = T ∧
      (transformRun A T x).2.W = T.W ∧ (transformRun A T x).2.b = T.b ∧
      (transformRun A T x).2.gamma = T.gamma ∧
      (transformRun A T x).2.domainSize = T.domainSize ∧
      (transformRun A T x).2.coDomainSize = T.coDomainSize ∧
      (transformRun A T x).1 = transform A T x ∧
      (transformRun A (transformRun A T x).2 x).1 = (transformRun A T x).1 ∧
      ∀ T2 : Instance R, T2.W = T.W → T2.b = T.b → T2.domainSize = T.domainSize →
        T2.coDomainSize = T.coDomainSize → (transformRun A T2 x).1 = (transformRun A T x).1 := by
  have h := transformRun_snd A T x
  refine ⟨h, by rw [h], by rw [h], by rw [h], by rw [h], by rw [h], transformRun_fst A T x,
    by rw [h], ?_⟩
  intro T2 hW hb hd hc
  rw [transformRun_fst, transformRun_fst, transform_congr A T T2 x hW hb hd hc]

/-- C11 (witness): two calls on the `3 × 2` scenario of the specification, and a call on
an object that differs only in `gamma`. -/
theorem transform_pure_witness :
    (transformRun (Arith.mk Real.cos Real.sqrt (fun x => if 0 ≤ x then ⌊x⌋ else ⌈x⌉))
      (transformRun (Arith.mk Real.cos Real.sqrt (fun x => if 0 ≤ x then ⌊x⌋ else ⌈x⌉))
        (Instance.mk "RandomFeature" 2 3 (1 / 2)
          (Matrix.mk 3 2 [1 / 10, -2 / 10, 3 / 10, 5 / 100, -15 / 100, 25 / 100])
          [0, Real.pi / 2, Real.pi]) [1, 1]).2 [1, 1]).1
      = (transformRun (Arith.mk Real.cos Real.sqrt (fun x => if 0 ≤ x then ⌊x⌋ else ⌈x⌉))
        (Instance.mk "RandomFeature" 2 3 (1 / 2)
          (Matrix.mk 3 2 [1 / 10, -2 / 10, 3 / 10, 5 / 100, -15 / 100, 25 / 100])
          [0, Real.pi / 2, Real.pi]) [1, 1]).1 ∧
    (transformRun (Arith.mk Real.cos Real.sqrt (fun x => if 0 ≤ x then ⌊x⌋ else ⌈x⌉))
        (Instance.mk "RandomFeature" 2 3 7
          (Matrix.mk 3 2 [1 / 10, -2 / 10, 3 / 10, 5 / 100, -15 / 100, 25 / 100])
          [0, Real.pi / 2, Real.pi]) [1, 1]).1
      = (transformRun (Arith.mk Real.cos Real.sqrt (fun x => if 0 ≤ x then ⌊x⌋ else ⌈x⌉))
        (Instance.mk "RandomFeature" 2 3 (1 / 2)
          (Matrix.mk 3 2 [1 / 10, -2 / 10, 3 / 10, 5 / 100, -15 / 100, 25 / 100])
          [0, Real.pi / 2, Real.pi]) [1, 1]).1 :=
  have h := transform_pure (Arith.mk Real.cos Real.sqrt (fun x => if 0 ≤ x then ⌊x⌋ else ⌈x⌉))
    (Instance.mk "RandomFeature" 2 3 (1 / 2)
      (Matrix.mk 3 2 [1 / 10, -2 / 10, 3 / 10, 5 / 100, -15 / 100, 25 / 100])
      [0, Real.pi / 2, Real.pi]) [1, 1]
  ⟨h.2.2.2.2.2.2.2.1, h.2.2.2.2.2.2.2.2 _ rfl rfl rfl rfl⟩

/-! ## Size setters -/

/-- C14: `setDomainSize(s)` and `setCoDomainSize(s)` store the size, keep `gamma`, the
other size and the name, and then run `reset` once: `W` and `b` are the freshly
generated basis for the new sizes, scaled with the unchanged `gamma`, whatever `W`,
`b` and the size were before (also when `s` is the size already stored); the reset
takes `m * n` normal draws and `m` uniform draws for the new sizes. -/
theorem size_setters_reset (A : Arith R) (d : Draws R) (s : Nat) (T : Instance R) :
    (setDomainSize A d s T
        = reset A d (IFixedSizeTransformer.setDomainSize s T) ∧
      setDomainSize A d s T
        = { T with
              domainSize := s
              W := ⟨T.coDomainSize, s, (List.range (T.coDomainSize * s)).map
                (fun k => A.sqrt (2 * T.gamma) * d.normal k)⟩
              b := (List.range T.coDomainSize).map (fun i => TWOPI * d.uniform i) } ∧
      (setDomainSize A d s T).gamma = T.gamma ∧
      (setDomainSize A d s T).coDomainSize = T.coDomainSize ∧
      (resetRun A d (IFixedSizeTransformer.setDomainSize s T)).2.1.pos = T.coDomainSize * s ∧
      (resetRun A d (IFixedSizeTransformer.setDomainSize s T)).2.2.pos = T.coDomainSize) ∧
    (setCoDomainSize A d s T
        = reset A d (IFixedSizeTransformer.setCoDomainSize s T) ∧
      setCoDomainSize A d s T
        = { T with
              coDomainSize := s
              W := ⟨s, T.domainSize, (List.range (s * T.domainSize)).map
                (fun k => A.sqrt (2 * T.gamma) * d.normal k)⟩
              b := (List.range s).map (fun i => TWOPI * d.uniform i) } ∧
      (setCoDomainSize A d s T).gamma = T.gamma ∧
      (setCoDomainSize A d s T).domainSize = T.domainSize ∧
      (resetRun A d (IFixedSizeTransformer.setCoDomainSize s T)).2.1.pos = s * T.domainSize ∧
      (resetRun A d (IFixedSizeTransformer.setCoDomainSize s T)).2.2.pos = s) := by
  refine ⟨⟨rfl, ?_, ?_, ?_, ?_, ?_⟩, ⟨rfl, ?_, ?_, ?_, ?_, ?_⟩⟩
  all_goals
    first
      | (rw [resetRun_eq]; rfl)
      | (simp only [setDomainSize, setCoDomainSize, reset_eq]; rfl)

/-! ## Numerical properties of the feature map -/

/-- A matrix whose storage reads zero everywhere maps every vector to the zero vector. -/
theorem Matrix.mulVec_zero (M : Matrix R) (x : Vec R) (hz : ∀ k, M.data.getD k 0 = 0) :
    M.mulVec x = (List.range M.rows).map (fun _ => (0 : R)) := by
  unfold Matrix.mulVec
  apply List.map_congr_left
  intro r _
  have hrow : (List.range M.cols).map (fun c => M.get r c * x.getD c 0)
      = (List.range M.cols).map (fun _ => (0 : R)) := by
    apply List.map_congr_left
    intro c _
    rw [Matrix.get, hz, zero_mul]
  rw [hrow]
  simp

/-- Adding the zero vector of the right length to `b` gives `b`. -/
theorem Vec.zero_add (b : Vec R) (m : Nat) (hb : b.length = m) :
    Vec.add ((List.range m).map (fun _ => (0 : R))) b = b := by
  have h1 : Vec.add ((List.range m).map (fun _ => (0 : R))) b
      = (List.range b.length).map (fun k => b.getD k 0) := by
    simp only [Vec.add, List.length_map, List.length_range, hb]
    apply List.map_congr_left
    intro k hk
    simp [List.mem_range.mp hk, List.getElem?_range]
  rw [h1, range_map_getD]

/-- C17: after a `reset` with `gamma = 0` (and `sqrt 0 = 0`) every entry of `W` is 0
whatever the normal draws are, and `transform` returns the same vector for all inputs
of length `n`: entry `i` is `cos(b(i)) / sqrt(m)`. -/
theorem zero_gamma_collapses (A : Arith R) (d : Draws R) (T : Instance R) (hg : T.gamma = 0)
    (hsqrt : A.sqrt 0 = 0) :
    (∀ r c, (reset A d T).W.get r c = 0) ∧
      (∀ k, (reset A d T).W.data.getD k 0 = 0) ∧
      (∀ x : Vec R, x.length = T.domainSize →
        transform A (reset A d T) x
          = .ok ((reset A d T).b.map (fun v => A.cos v / A.sqrt (T.coDomainSize : R)))) ∧
      (∀ x y : Vec R, x.length = T.domainSize → y.length = T.domainSize →
        transform A (reset A d T) x = transform A (reset A d T) y) ∧
      (reset A d T).b.length = T.coDomainSize := by
  have hz : ∀ k, (reset A d T).W.data.getD k 0 = 0 := by
    intro k
    rw [reset_eq]
    simp only [hg, mul_zero, hsqrt, zero_mul]
    by_cases hk : k < T.coDomainSize * T.domainSize
    · simp [hk]
    · simp [hk]
  have hdom : (reset A d T).domainSize = T.domainSize := by rw [reset_eq]
  have hcod : (reset A d T).coDomainSize = T.coDomainSize := by rw [reset_eq]
  have hrows : (reset A d T).W.rows = T.coDomainSize := by rw [reset_eq]
  have hb : (reset A d T).b.length = T.coDomainSize := by rw [reset_eq]; simp
  have htr : ∀ x : Vec R, x.length = T.domainSize →
      transform A (reset A d T) x
        = .ok ((reset A d T).b.map (fun v => A.cos v / A.sqrt (T.coDomainSize : R))) := by
    intro x hx
    rw [transform_eq A _ x (hx.trans hdom.symm), Matrix.mulVec_zero _ x hz, hrows,
      Vec.zero_add _ _ hb, hcod]
  exact ⟨fun r c => hz _, hz, htr, fun x y hx hy => (htr x hx).trans (htr y hy).symm, hb⟩

/-- C17 (witness): sizes `m = 1`, `n = 2`, normal draws all 5; inputs `[1, 2]` and
`[3, 4]` are mapped to the same vector. -/
theorem zero_gamma_collapses_witness :
    transform (Arith.mk Real.cos Real.sqrt (fun x => if 0 ≤ x then ⌊x⌋ else ⌈x⌉))
        (reset (Arith.mk Real.cos Real.sqrt (fun x => if 0 ≤ x then ⌊x⌋ else ⌈x⌉))
          (Draws.mk (fun _ => 5) (fun _ => 1 / 4))
          (Instance.mk "RandomFeature" 2 1 0 (Matrix.mk 0 0 []) [])) [1, 2]
      = transform (Arith.mk Real.cos Real.sqrt (fun x => if 0 ≤ x then ⌊x⌋ else ⌈x⌉))
        (reset (Arith.mk Real.cos Real.sqrt (fun x => if 0 ≤ x then ⌊x⌋ else ⌈x⌉))
          (Draws.mk (fun _ => 5) (fun _ => 1 / 4))
          (Instance.mk "RandomFeature" 2 1 0 (Matrix.mk 0 0 []) [])) [3, 4] :=
  (zero_gamma_collapses (Arith.mk Real.cos Real.sqrt (fun x => if 0 ≤ x then ⌊x⌋ else ⌈x⌉))
    (Draws.mk (fun _ => 5) (fun _ => 1 / 4))
    (Instance.mk "RandomFeature" 2 1 0 (Matrix.mk 0 0 []) []) rfl Real.sqrt_zero).2.2.2.1
      [1, 2] [3, 4] rfl rfl

theorem dropLast_append_getLast?_toList {α : Type} (l : List α) :
    l.dropLast ++ l.getLast?.toList = l := by
  induction l using List.reverseRecOn with
  | nil => rfl
  | append_singleton l a _ => simp

/-- Every pop keeps `stream ++ reverse log` unchanged. -/
theorem popLog_inv (X : Bottle R) (st : Logged R) (h : X = st.1 ++ st.2.reverse) :
    X = (popLog st).2.1 ++ (popLog st).2.2.reverse := by
  have hrev : (st.1.getLast?.toList).reverse = st.1.getLast?.toList := by
    cases st.1.getLast? <;> rfl
  simp only [popLog, Bottle.pop, List.reverse_append, hrev, ← List.append_assoc,
    dropLast_append_getLast?_toList]
  exact h

theorem forDown_sim {σ τ : Type} (p : σ → τ) (f : Nat → σ → σ) (g : Nat → τ → τ)
    (h : ∀ k s, p (f k s) = g k (p s)) (n : Nat) (s : σ) :
    p (forDown n f s) = forDown n g (p s) := by
  induction n generalizing s with
  | zero => rfl
  | succ n ih =>
    show p (forDown n f (f n s)) = forDown n g (g n (p s))
    rw [ih, h]

theorem readCellLog_loops_erase (m : Nat) (st : Logged R × Matrix R) :
    ((forDown m (fun r st => forDown st.2.cols (readCellLog r) st) st).1.1,
      (forDown m (fun r st => forDown st.2.cols (readCellLog r) st) st).2)
      = forDown m (fun r st => forDown st.2.cols (readCell r) st) (st.1.1, st.2) :=
  forDown_sim (fun st : Logged R × Matrix R => (st.1.1, st.2)) _ _
    (fun _ st => forDown_sim (fun st : Logged R × Matrix R => (st.1.1, st.2)) _ _
      (fun _ _ => rfl) st.2.cols st) m st

theorem readPhaseLog_loop_erase (m : Nat) (st : Logged R × Vec R) :
    ((forDown m readPhaseLog st).1.1, (forDown m readPhaseLog st).2)
      = forDown m readPhase (st.1.1, st.2) :=
  forDown_sim (fun st : Logged R × Vec R => (st.1.1, st.2)) _ _ (fun _ _ => rfl) m st

theorem popDimsLog_erase (A : Arith R) (ord : ArgOrder) (st : Logged R) :
    ((popDimsLog A ord st).1, (popDimsLog A ord st).2.1, (popDimsLog A ord st).2.2.1)
      = popDims A ord st.1 := by
  cases ord <;> rfl

/-- Forgetting the log of `readBottleLog` gives `readBottle`. -/
theorem readBottleLog_erase (A : Arith R) (ord : ArgOrder) (B : Base R) (bot : Bottle R)
    (T : Instance R) :
    ((readBottleLog A ord B bot T).1.1, (readBottleLog A ord B bot T).2)
      = readBottle A ord B bot T := by
  have hd := popDimsLog_erase A ord ((B.readBottle bot T).1, [])
  have hd1 : (popDimsLog A ord ((B.readBottle bot T).1, [])).1
      = (popDims A ord (B.readBottle bot T).1).1 := congrArg (fun t => t.1) hd
  have hd2 : (popDimsLog A ord ((B.readBottle bot T).1, [])).2.1
      = (popDims A ord (B.readBottle bot T).1).2.1 := congrArg (fun t => t.2.1) hd
  have hd3 : (popDimsLog A ord ((B.readBottle bot T).1, [])).2.2.1
      = (popDims A ord (B.readBottle bot T).1).2.2 := congrArg (fun t => t.2.2) hd
  have hW := readCellLog_loops_erase
    ((B.readBottle bot T).2.W.resize (popDims A ord (B.readBottle bot T).1).1.toNat
      (popDims A ord (B.readBottle bot T).1).2.1.toNat).rows
    ((popDimsLog A ord ((B.readBottle bot T).1, [])).2.2,
      (B.readBottle bot T).2.W.resize (popDims A ord (B.readBottle bot T).1).1.toNat
        (popDims A ord (B.readBottle bot T).1).2.1.toNat)
  simp only [hd3] at hW
  have hW1 := congrArg (fun t => t.1) hW
  have hW2 := congrArg (fun t => t.2) hW
  simp only at hW1 hW2
  simp only [readBottleLog, readBottle, hd1, hd2, popLog, hW1, hW2]
  have hb := fun (n : Nat) (st : Logged R × Vec R) => readPhaseLog_loop_erase n st
  have hb1 := fun n st => congrArg (fun t : Bottle R × Vec R => t.1) (hb n st)
  have hb2 := fun n st => congrArg (fun t : Bottle R × Vec R => t.2) (hb n st)
  simp only at hb1 hb2
  simp only [hb1, hb2]

theorem popDimsLog_inv (A : Arith R) (ord : ArgOrder) (X : Bottle R) (st : Logged R)
    (h : X = st.1 ++ st.2.reverse) :
    X = (popDimsLog A ord st).2.2.1 ++ (popDimsLog A ord st).2.2.2.reverse := by
  cases ord <;> exact popLog_inv X _ (popLog_inv X _ h)

/-- The stream left by the base class is the stream left by `readBottle` followed by
the values `readBottle` removed, the last removed first. -/
theorem readBottleLog_inv (A : Arith R) (ord : ArgOrder) (B : Base R) (bot : Bottle R)
    (T : Instance R) :
    (B.readBottle bot T).1
      = (readBottleLog A ord B bot T).1.1 ++ (readBottleLog A ord B bot T).1.2.reverse := by
  simp only [readBottleLog]
  apply popLog_inv
  refine forDown_inv (fun st : Logged R × Vec R => (B.readBottle bot T).1 = st.1.1 ++ st.1.2.reverse)
    _ (fun k s hs => popLog_inv _ _ hs) _ _ ?_
  apply popLog_inv
  refine forDown_inv
    (fun st : Logged R × Matrix R => (B.readBottle bot T).1 = st.1.1 ++ st.1.2.reverse)
    _ (fun r s hs => ?_) _ _ ?_
  · exact forDown_inv
      (fun st : Logged R × Matrix R => (B.readBottle bot T).1 = st.1.1 ++ st.1.2.reverse)
      _ (fun c s hs => popLog_inv _ _ hs) _ _ hs
  · apply popDimsLog_inv
    simp

/-- C13: for an instance with the shape invariant, `writeBottle` onto `S` followed by
`readBottle` (under either evaluation order, into any object) leaves the stream equal
to `S`; after the base class has removed its own fields, the values removed are exactly
the tokens `writeBottle` pushed, in reverse order: the column count, the row count, the
entries of `W` from the last to the first, the length of `b`, the entries of `b` from
the last to the first, and `gamma` last. -/
theorem stack_discipline (A : Arith R) (ord : ArgOrder) (B : Base R) (T T0 : Instance R)
    (S : Bottle R) (hs : ShapeOK T)
    (hbase : ∀ bot, (B.readBottle (B.writeBottle T bot) T0).1 = bot) :
    (readBottle A ord B (writeBottle B T S) T0).1 = S ∧
      (B.readBottle (writeBottle B T S) T0).1
        = S ++ ([Value.double T.gamma] ++ T.b.map Value.double ++ [Value.int T.coDomainSize]
          ++ T.W.rowMajor.map Value.double
          ++ [Value.int T.coDomainSize, Value.int T.domainSize]) ∧
      (readBottleLog A ord B (writeBottle B T S) T0).1.1 = S ∧
      (readBottleLog A ord B (writeBottle B T S) T0).2
        = (readBottle A ord B (writeBottle B T S) T0).2 ∧
      (readBottleLog A ord B (writeBottle B T S) T0).1.2
        = [Value.int T.domainSize, Value.int T.coDomainSize]
          ++ T.W.rowMajor.reverse.map Value.double ++ [Value.int T.coDomainSize]
          ++ T.b.reverse.map Value.double ++ [Value.double T.gamma] ∧
      (readBottleLog A ord B (writeBottle B T S) T0).1.2.length
        = T.coDomainSize * T.domainSize + T.coDomainSize + 4 := by
  obtain ⟨hr, hc, hd, hb⟩ := hs
  have hW : T.W.WellFormed := by
    unfold Matrix.WellFormed
    rw [hd, hr, hc]
  have hread := readBottle_writeBottle A ord B T T0 S hW hbase
  have herase := readBottleLog_erase A ord B (writeBottle B T S) T0
  have hX : (B.readBottle (writeBottle B T S) T0).1
      = S ++ ([Value.double T.gamma] ++ T.b.map Value.double ++ [Value.int T.coDomainSize]
          ++ T.W.rowMajor.map Value.double
          ++ [Value.int T.coDomainSize, Value.int T.domainSize]) := by
    rw [writeBottle_eq, hbase, hb, hr, hc]
  have hS : (readBottleLog A ord B (writeBottle B T S) T0).1.1 = S := by
    have := congrArg (fun t => t.1) herase
    simp only at this
    rw [this, hread]
  have hinv := readBottleLog_inv A ord B (writeBottle B T S) T0
  rw [hX, hS] at hinv
  have hlog := congrArg List.reverse (List.append_cancel_left hinv)
  rw [List.reverse_reverse] at hlog
  have hlen : T.W.rowMajor.length = T.coDomainSize * T.domainSize := by
    rw [Matrix.rowMajor_eq_data _ hW, hd]
  refine ⟨by rw [hread], hX, hS, ?_, ?_, ?_⟩
  · have := congrArg (fun t => t.2) herase
    simpa using this
  · rw [← hlog]
    simp [List.map_reverse]
  · rw [← hlog]
    simp [hlen, hb]
    omega

/-- C13 (witness): a `1 × 2` instance with `gamma = 5`, `W = [[1, 2]]`, `b = [7]`, read
back under left-to-right evaluation: the values are removed in the order
`2, 1, 2.0, 1.0, 1, 7.0, 5.0`. -/
theorem stack_discipline_witness :
    (readBottleLog (Arith.mk (fun x : ℚ => x) (fun x => x) (fun x => x.floor))
        ArgOrder.leftToRight
        (Base.mk (fun _ bot => bot) (fun bot T => (bot, T)) (fun _ T => (false, T)))
        (writeBottle (Base.mk (fun _ bot => bot) (fun bot T => (bot, T)) (fun _ T => (false, T)))
          (Instance.mk "RandomFeature" 2 1 5 (Matrix.mk 1 2 [1, 2]) [7]) [Value.int 9])
        (Instance.mk "RandomFeature" 0 0 0 (Matrix.mk 0 0 []) [])).1
      = ([Value.int 9],
          [Value.int 2, Value.int 1, Value.double 2, Value.double 1, Value.int 1,
            Value.double 7, Value.double 5]) := by
  have h := stack_discipline (Arith.mk (fun x : ℚ => x) (fun x => x) (fun x => x.floor))
    ArgOrder.leftToRight
    (Base.mk (fun _ bot => bot) (fun bot T => (bot, T)) (fun _ T => (false, T)))
    (Instance.mk "RandomFeature" 2 1 5 (Matrix.mk 1 2 [1, 2]) [7])
    (Instance.mk "RandomFeature" 0 0 0 (Matrix.mk 0 0 []) []) [Value.int 9]
    ⟨rfl, rfl, rfl, rfl⟩ (fun _ => rfl)
  apply Prod.ext
  · exact h.2.2.1
  · rw [h.2.2.2.2.1]
    simp [Matrix.rowMajor, Matrix.get, List.range_succ]

/-! ## Malformed streams -/

end RandomFeature

end iCub.learningmachine
